import Mathlib

/-!
Verification of the conversational core of the AI Booking Assistant:
the booking slot-filling state machine (`booking_flow.py`), the chat
router with bounded history and duplicate-question memory
(`chat_logic.py`), and the retrieval/chunking parts of the RAG
pipeline (`rag_pipeline.py`).

Python strings are modelled by `String` (with `List Char` views where
character-level scanning is needed); Python `str.strip` and `str.lower` are
the kernel-reducible `pyStrip` and `pyLower` below.  Python dictionaries over the fixed
booking-field set are modelled as functions `FieldName → Option String`
(`none` models an absent key).  Code paths that raise an uncaught
exception (the `KeyError` on a direct dictionary access) are modelled by
an `Option` result, `none` standing for the exception.
-/

/-! ## Booking flow: data model (`booking_flow.py`) -/

/-- The six required booking fields, in the fixed source order. -/
inductive FieldName where
  | name
  | email
  | phone
  | booking_type
  | date
  | time
deriving DecidableEq, Repr, Fintype

/-- `REQUIRED_FIELDS = ["name", "email", "phone", "booking_type", "date", "time"]`. -/
def REQUIRED_FIELDS : List FieldName :=
  [FieldName.name, FieldName.email, FieldName.phone, FieldName.booking_type, FieldName.date, FieldName.time]

/-- Position of a field in `REQUIRED_FIELDS` (used to state "first missing"). -/
def fieldIdx : FieldName → Nat
  | FieldName.name => 0
  | FieldName.email => 1
  | FieldName.phone => 2
  | FieldName.booking_type => 3
  | FieldName.date => 4
  | FieldName.time => 5


/-! ## Python string primitives

Lean's own `String.trim`, `String.toLower` and `String.split` are defined by
recursion over byte positions and do not reduce inside the kernel, so the
Python operations are embedded as structurally recursive functions over the
character list of the string. -/

/-- Python `str.strip()`: drop whitespace from both ends of a char list. -/
def trimChars (l : List Char) : List Char :=
  ((l.dropWhile Char.isWhitespace).reverse.dropWhile Char.isWhitespace).reverse

/-- Python `str.strip()` on strings. -/
def pyStrip (s : String) : String := String.mk (trimChars s.data)

/-- Python `str.lower()` on strings (ASCII case mapping). -/
def pyLower (s : String) : String := String.mk (s.data.map Char.toLower)

/-- Python `str.split()` with no separator: the maximal whitespace-free words
of the text, in order (`acc` holds the current word reversed). -/
def wordsAux (acc : List Char) : List Char → List (List Char)
  | [] => if acc.isEmpty then [] else [acc.reverse]
  | c :: r =>
    if c.isWhitespace then
      if acc.isEmpty then wordsAux [] r else acc.reverse :: wordsAux [] r
    else wordsAux (c :: acc) r

/-- Join words with single spaces (`" ".join(...)`). -/
def joinSpaces : List (List Char) → List Char
  | [] => []
  | [w] => w
  | w :: ws => w ++ ' ' :: joinSpaces ws

/-- The in-progress booking record: Python dict from field name to string. -/
def Booking : Type := FieldName → Option String

/-- Dictionary update `booking[field] = value`. -/
def insertB (b : Booking) (f : FieldName) (v : String) : Booking :=
  fun g => if g = f then some v else b g

/-- The empty dict `{}`. -/
def emptyBooking : Booking := fun _ => none

/-- Python truthiness of `booking.get(field)`: `None` and `""` are falsy. -/
def truthy : Option String → Bool
  | none => false
  | some s => s ≠ ""

/-- Structured booking payload (`BookingData`). -/
structure BookingData where
  name : String
  email : String
  phone : String
  booking_type : String
  date : String
  time : String
deriving DecidableEq, Repr

/-- Conversation state of an in-progress booking (`BookingState`). -/
structure BookingState where
  booking : Booking
  stage : String := "collecting"
  awaiting_field : Option FieldName := none
  confirmed : Bool := false

/-- `BookingState(booking={})`: the fresh state made when `state is None`. -/
def freshState : BookingState := { booking := emptyBooking }

/-! ## Booking flow: validators -/

/-- Numeric value of a decimal digit character. -/
def dv (c : Char) : Nat := c.toNat - 48

/-- Split a character list at the first occurrence of `c` (the part before
contains no `c`). -/
def splitAtFirst (c : Char) : List Char → Option (List Char × List Char)
  | [] => none
  | x :: r =>
    if x = c then some ([], r)
    else (splitAtFirst c r).map (fun p => (x :: p.1, p.2))

/-- Body of the email regex match `^[^@\s]+@[^@\s]+\.[^@\s]+$`: a non-empty
whitespace-free local part, one `@`, and a domain part free of `@` and
whitespace containing a `.` that is neither its first nor its last character. -/
def emailOk (s : List Char) : Bool :=
  match splitAtFirst '@' s with
  | some (a, r) =>
    decide (a ≠ []) && a.all (fun c => !c.isWhitespace) &&
      r.all (fun c => !(c = '@' || c.isWhitespace)) &&
      ((r.drop 1).dropLast.contains '.')
  | none => false

/-- `_is_valid_email`: regex check on the stripped string. -/
def is_valid_email (email : String) : Bool :=
  emailOk (trimChars email.data)

/-- `strptime` token `%Y`: exactly four digits. -/
def parseYear : List Char → Option (Nat × List Char)
  | a :: b :: c :: d :: rest =>
    if a.isDigit && b.isDigit && c.isDigit && d.isDigit then
      some (1000 * dv a + 100 * dv b + 10 * dv c + dv d, rest)
    else none
  | _ => none

/-- `strptime` token `%m`: alternation `1[0-2]|0[1-9]|[1-9]`, tried in order. -/
def parseMonth : List Char → Option (Nat × List Char)
  | c1 :: c2 :: rest =>
    if c1 = '1' && (c2 = '0' || c2 = '1' || c2 = '2') then some (10 + dv c2, rest)
    else if c1 = '0' && c2.isDigit && c2 ≠ '0' then some (dv c2, rest)
    else if c1.isDigit && c1 ≠ '0' then some (dv c1, c2 :: rest)
    else none
  | [c1] => if c1.isDigit && c1 ≠ '0' then some (dv c1, []) else none
  | [] => none

/-- `strptime` token `%d`: alternation `3[01]|[12]\d|0[1-9]|[1-9]`, in order. -/
def parseDay : List Char → Option (Nat × List Char)
  | c1 :: c2 :: rest =>
    if c1 = '3' && (c2 = '0' || c2 = '1') then some (30 + dv c2, rest)
    else if (c1 = '1' || c1 = '2') && c2.isDigit then some (10 * dv c1 + dv c2, rest)
    else if c1 = '0' && c2.isDigit && c2 ≠ '0' then some (dv c2, rest)
    else if c1.isDigit && c1 ≠ '0' then some (dv c1, c2 :: rest)
    else none
  | [c1] => if c1.isDigit && c1 ≠ '0' then some (dv c1, []) else none
  | [] => none

/-- `strptime` token `%H`: alternation `2[0-3]|[0-1]\d|\d`, in order. -/
def parseHour : List Char → Option (Nat × List Char)
  | c1 :: c2 :: rest =>
    if c1 = '2' && (c2 = '0' || c2 = '1' || c2 = '2' || c2 = '3') then
      some (20 + dv c2, rest)
    else if (c1 = '0' || c1 = '1') && c2.isDigit then some (10 * dv c1 + dv c2, rest)
    else if c1.isDigit then some (dv c1, c2 :: rest)
    else none
  | [c1] => if c1.isDigit then some (dv c1, []) else none
  | [] => none

/-- `strptime` token `%M`: alternation `[0-5]\d|\d`, in order. -/
def parseMinute : List Char → Option (Nat × List Char)
  | c1 :: c2 :: rest =>
    if (c1 = '0' || c1 = '1' || c1 = '2' || c1 = '3' || c1 = '4' || c1 = '5') && c2.isDigit then
      some (10 * dv c1 + dv c2, rest)
    else if c1.isDigit then some (dv c1, c2 :: rest)
    else none
  | [c1] => if c1.isDigit then some (dv c1, []) else none
  | [] => none

/-- Days in a month, with the Gregorian leap rule used by `datetime`. -/
def daysInMonth (y m : Nat) : Nat :=
  if m = 2 then (if y % 4 = 0 && (y % 100 ≠ 0 || y % 400 = 0) then 29 else 28)
  else if m = 4 || m = 6 || m = 9 || m = 11 then 30
  else 31

/-- `_is_valid_date`: `datetime.strptime(date_str.strip(), "%Y-%m-%d")`
succeeds — the whole string matches the format and names a real calendar
date with year at least 1. -/
def is_valid_date (date_str : String) : Bool :=
  match parseYear (trimChars date_str.data) with
  | some (y, c1 :: r1) =>
    if c1 = '-' then
      match parseMonth r1 with
      | some (mo, c2 :: r2) =>
        if c2 = '-' then
          match parseDay r2 with
          | some (d, []) => decide (1 ≤ y) && decide (d ≤ daysInMonth y mo)
          | _ => false
        else false
      | _ => false
    else false
  | _ => false

/-- `_is_valid_time`: `datetime.strptime(time_str.strip(), "%H:%M")` succeeds. -/
def is_valid_time (time_str : String) : Bool :=
  match parseHour (trimChars time_str.data) with
  | some (_, c1 :: r1) =>
    if c1 = ':' then
      match parseMinute r1 with
      | some (_, []) => true
      | _ => false
    else false
  | _ => false

/-- `detect_missing_fields`: which required fields are missing or empty. -/
def detect_missing_fields (booking : Booking) : FieldName → Bool :=
  fun field => !truthy (booking field)

/-- `_validate_field`: field-level validation, returning
`(is_valid, error_message_if_any)`. -/
def validate_field (field : FieldName) (value : String) : Bool × Option String :=
  let v := pyStrip value
  match field with
  | FieldName.name =>
    if v = "" then (false, some "Please provide a valid name.") else (true, none)
  | FieldName.booking_type =>
    if v = "" then (false, some "Please provide a valid booking type.") else (true, none)
  | FieldName.email =>
    if is_valid_email v then (true, none)
    else (false, some "That email address doesn't look valid. Please enter a valid email (e.g. name@example.com).")
  | FieldName.phone =>
    if 7 ≤ (v.data.filter Char.isDigit).length then (true, none)
    else (false, some "Please provide a valid phone number (at least 7 digits).")
  | FieldName.date =>
    if is_valid_date v then (true, none)
    else (false, some "Please enter a valid date in the format YYYY-MM-DD.")
  | FieldName.time =>
    if is_valid_time v then (true, none)
    else (false, some "Please enter a valid time in 24-hour format HH:MM (e.g. 14:30).")

/-! ## Booking flow: prompts, summary, state machine -/

/-- `summarize_booking`'s `{value or 'N/A'}` interpolation. -/
def orNA (s : String) : String := if s = "" then "N/A" else s

/-- `summarize_booking`: human-readable summary of the booking details. -/
def summarize_booking (booking : Booking) : String :=
  let name := pyStrip ((booking FieldName.name).getD "")
  let email := pyStrip ((booking FieldName.email).getD "")
  let phone := pyStrip ((booking FieldName.phone).getD "")
  let booking_type := pyStrip ((booking FieldName.booking_type).getD "")
  let date := pyStrip ((booking FieldName.date).getD "")
  let time := pyStrip ((booking FieldName.time).getD "")
  String.intercalate "\n"
    ["Here are your booking details:",
     "- Name: " ++ orNA name,
     "- Email: " ++ orNA email,
     "- Phone: " ++ orNA phone,
     "- Booking type: " ++ orNA booking_type,
     "- Date: " ++ orNA date,
     "- Time: " ++ orNA time]

/-- `_next_missing_field`: the first required field whose value is missing or
empty, in the fixed order, else `None`. -/
def next_missing_field (booking : Booking) : Option FieldName :=
  REQUIRED_FIELDS.find? (fun field => !truthy (booking field))

/-- `_field_prompt`: the canonical prompt for each field. -/
def field_prompt : FieldName → String
  | FieldName.name => "To get started, what's your full name?"
  | FieldName.email => "Please provide your email address."
  | FieldName.phone => "What is the best phone number to reach you?"
  | FieldName.booking_type => "What type of booking would you like to make (e.g. consultation, demo, reservation)?"
  | FieldName.date => "On which date would you like the booking? (format: YYYY-MM-DD)"
  | FieldName.time => "At what time? (24-hour format HH:MM, e.g. 14:30)"

/-- The `BookingData(...)` construction from direct dictionary accesses
`state.booking["name"].strip()` and so on; `none` models the `KeyError`
raised when a field is absent. -/
def mkPayload (b : Booking) : Option BookingData :=
  match b FieldName.name, b FieldName.email, b FieldName.phone,
      b FieldName.booking_type, b FieldName.date, b FieldName.time with
  | some n, some e, some p, some bt, some d, some t =>
    some ⟨pyStrip n, pyStrip e, pyStrip p, pyStrip bt, pyStrip d, pyStrip t⟩
  | _, _, _, _, _, _ => none

/-- The affirmative confirmation tokens `{"yes", "y", "confirm", "sure"}`. -/
def affirmatives : List String := ["yes", "y", "confirm", "sure"]

/-- The negative confirmation tokens `{"no", "n", "cancel"}`. -/
def negatives : List String := ["no", "n", "cancel"]

/-- The tail of `handle_booking_flow` after the confirm stage and the
awaiting-field collection step: recompute the next missing field, prompt for
it, otherwise move to confirmation, or replay the terminal stages. -/
def afterCollect (state : BookingState) : Option (String × BookingState × Option BookingData) :=
  match next_missing_field state.booking with
  | some missing_field =>
    some (field_prompt missing_field,
      { state with stage := "collecting", awaiting_field := some missing_field }, none)
  | none =>
    if state.stage = "collecting" then
      let st := { state with stage := "confirm" }
      some (summarize_booking st.booking ++ "\n\n" ++
        "Please confirm: do you want me to place this booking? (yes/no)", st, none)
    else if state.stage ≠ "completed" ∧ state.stage ≠ "cancelled" then
      let st := { state with stage := "confirm" }
      some (summarize_booking st.booking ++ "\n\nPlease confirm this booking with 'yes' or 'no'.",
        st, none)
    else if state.stage = "completed" then
      if REQUIRED_FIELDS.all (fun k => truthy (state.booking k)) then
        match mkPayload state.booking with
        | some payload => some ("This booking has already been confirmed.", state, some payload)
        | none => none
      else
        some ("This booking has already been confirmed.", state, none)
    else
      some ("This booking flow has been cancelled. Start a new booking if needed.", state, none)

/-- `handle_booking_flow`: the core booking state machine.  The result is
`(response_text, new_state, booking_payload)`; the outer `Option` is `none`
only on the `KeyError` path (confirming with a field absent from the dict). -/
def handle_booking_flow (state? : Option BookingState) (user_input : Option String) :
    Option (String × BookingState × Option BookingData) :=
  let state := state?.getD freshState
  let user_text := pyStrip (user_input.getD "")
  if state.stage = "confirm" then
    if user_text = "" then
      some ("Please respond with 'yes' to confirm the booking or 'no' to cancel.", state, none)
    else
      let normalized := pyLower user_text
      if affirmatives.contains normalized then
        let st := { state with confirmed := true, stage := "completed" }
        match mkPayload state.booking with
        | some payload => some ("Great, your booking is confirmed!", st, some payload)
        | none => none
      else if negatives.contains normalized then
        some ("Okay, I’ve cancelled this booking request. If you’d like to start over, just let me know.",
          { state with stage := "cancelled", confirmed := false }, none)
      else
        some ("Please answer with 'yes' to confirm the booking or 'no' to cancel.", state, none)
  else if state.stage = "collecting" then
    match state.awaiting_field with
    | none => afterCollect state
    | some field =>
      if user_text = "" then
        some ("I didn't catch that. " ++ field_prompt field, state, none)
      else
        match validate_field field user_text with
        | (false, error) => some (error.getD "", state, none)
        | (true, _) =>
          afterCollect
            { state with
              booking := insertB state.booking field (pyStrip user_text)
              awaiting_field := none }
  else
    afterCollect state

/-! ## Chat router: data model (`chat_logic.py`) -/

/-- A chat message `{"role": ..., "content": ...}`. -/
structure Message where
  role : String
  content : String
deriving DecidableEq, Repr

/-- `MAX_MESSAGES = 25`. -/
def MAX_MESSAGES : Nat := 25

/-- `_add_message`: append and trim the history to the last `MAX_MESSAGES`
entries, deleting the oldest ones. -/
def add_message (messages : List Message) (m : Message) : List Message :=
  let ms := messages ++ [m]
  if MAX_MESSAGES < ms.length then ms.drop (ms.length - MAX_MESSAGES) else ms

/-- `_normalize_text`: `" ".join(text.strip().lower().split())`. -/
def normalize_text (text : String) : String :=
  String.mk (joinSpaces (wordsAux [] ((trimChars text.data).map Char.toLower)))

/-- The scan of `_find_previous_answer_for_question`: for each user message
with the sought normalized content, return the next assistant message after
it if there is one, else keep scanning. -/
def find_previous_answer_aux (norm : String) : List Message → Option String
  | [] => none
  | m :: rest =>
    if m.role = "user" ∧ normalize_text m.content = norm then
      match (rest.find? (fun x => x.role == "assistant")).map Message.content with
      | some a => some a
      | none => find_previous_answer_aux norm rest
    else find_previous_answer_aux norm rest

/-- `_find_previous_answer_for_question`, with the history passed explicitly
instead of read from the session. -/
def find_previous_answer (history : List Message) (user_input : String) : Option String :=
  find_previous_answer_aux (normalize_text user_input) history

/-! ## Chat router: intent detection

`detect_intent` uses `re.search` with patterns of the shape
`\bword(\s+word)*\b`.  Since every pattern begins and ends with a word
character, `\b` holds exactly when the neighbouring character (if any) is not
a word character; `\s+` is matched by consuming one whitespace character and
then all following whitespace (safe here because the next pattern token is
always a letter); the alternation `(a|an|the)` is expanded into three
patterns tried in order. -/

/-- Python regex word characters (`\w`), for the ASCII strings at hand. -/
def isWordChar (c : Char) : Bool := c.isAlphanum || c = '_'

/-- Match a sequence of literal words separated by `\s+` at the head of `s`,
returning the rest of the input on success. -/
def matchWordsSep : List (List Char) → List Char → Option (List Char)
  | [], s => some s
  | [w], s => if w.isPrefixOf s then some (s.drop w.length) else none
  | w :: ws, s =>
    if w.isPrefixOf s then
      match s.drop w.length with
      | c :: r =>
        if c.isWhitespace then matchWordsSep ws (r.dropWhile Char.isWhitespace) else none
      | [] => none
    else none

/-- Trailing `\b` after a word character: end of input or a non-word char. -/
def boundaryAfter : List Char → Bool
  | [] => true
  | c :: _ => !isWordChar c

/-- `re.search` for `\bw1\s+w2...\b`: try a match at every position, keeping
the previous character for the leading word boundary. -/
def searchPat (ws : List (List Char)) : Option Char → List Char → Bool
  | prev, s =>
    ((match prev with | none => true | some c => !isWordChar c) &&
      (match matchWordsSep ws s with
       | some rest => boundaryAfter rest
       | none => false))
    || (match s with
        | [] => false
        | c :: r => searchPat ws (some c) r)

/-- The `booking_patterns` list of `detect_intent`, each tried by `re.search`
over the lowered text. -/
def booking_pattern_hit (lowered : List Char) : Bool :=
  searchPat ["book".toList] none lowered ||
  (searchPat ["book".toList, "a".toList] none lowered ||
    searchPat ["book".toList, "an".toList] none lowered ||
    searchPat ["book".toList, "the".toList] none lowered) ||
  searchPat ["make".toList, "a".toList, "booking".toList] none lowered ||
  searchPat ["create".toList, "a".toList, "booking".toList] none lowered ||
  searchPat ["reserve".toList] none lowered ||
  searchPat ["reservation".toList] none lowered ||
  searchPat ["schedule".toList] none lowered ||
  searchPat ["appointment".toList] none lowered ||
  searchPat ["cancel".toList, "my".toList, "booking".toList] none lowered ||
  searchPat ["change".toList, "my".toList, "booking".toList] none lowered

/-- The meta/process words that force classification to `"general"`. -/
def meta_words : List String := ["project", "requirements", "objective", "overview", "how it works"]

/-- Python substring containment `needle in hay`. -/
def containsSeq (needle : List Char) : List Char → Bool
  | [] => needle.isEmpty
  | c :: r => needle.isPrefixOf (c :: r) || containsSeq needle r

/-- `detect_intent`: keyword intent detection between `"booking"` and
`"general"`. -/
def detect_intent (text : String) : String :=
  let lowered := pyStrip (pyLower text)
  if meta_words.any (fun w => containsSeq w.data lowered.data) then "general"
  else if booking_pattern_hit lowered.data then "booking"
  else "general"

/-! ## Chat router: message handling -/

/-- Result dict of the external `rag_tool` collaborator
(`{"success": ..., "answer": ..., "error": ...}`). -/
structure RagResult where
  success : Bool
  answer : Option String
  error : Option String

/-- The combined session state (`st.session_state`): message history and the
optional booking conversation state. -/
structure ChatState where
  messages : List Message
  booking_state : Option BookingState

/-- The apology produced when the RAG collaborator yields no usable answer,
with the optional error detail appended. -/
def rag_fallback_answer (error : Option String) : String :=
  let base := "I’m not fully sure based on the information I have. If you upload a PDF or provide more details, I can try again."
  match error with
  | some e => base ++ "\n\n(Details: " ++ e ++ ")"
  | none => base

/-- Extraction of the displayed answer from the `rag_tool` result
(`answer = rag_result.get("answer") if rag_result.get("success") else None`,
falling back when the answer is `None` or empty). -/
def rag_answer_of (res : RagResult) : String :=
  let answer := if res.success then res.answer else none
  match answer with
  | some a => if a = "" then rag_fallback_answer res.error else a
  | none => rag_fallback_answer res.error

/-- The type of the booking state machine as the router calls it. -/
def BFlow : Type :=
  Option BookingState → Option String → Option (String × BookingState × Option BookingData)

/-- `handle_user_message`, parameterised by the external RAG collaborator
`rag` and the booking state machine `bflow` (instantiated with
`handle_booking_flow` for the real program); the result is
`(assistant_reply, booking_payload)` plus the updated session state, and
`none` models an uncaught exception escaping from `bflow`. -/
def handle_user_message (rag : String → List Message → RagResult) (bflow : BFlow)
    (st : ChatState) (input : String) : Option (String × Option BookingData × ChatState) :=
  let user_input := pyStrip input
  if user_input = "" then
    let reply := "Please type a message so I can assist you."
    some (reply, none, { st with messages := add_message st.messages ⟨"assistant", reply⟩ })
  else
    let msgs1 := add_message st.messages ⟨"user", user_input⟩
    match find_previous_answer msgs1 user_input with
    | some previous_answer =>
      let reply := "You asked a similar question earlier. Here’s the answer I shared before:\n\n" ++
        previous_answer
      some (reply, none, { st with messages := add_message msgs1 ⟨"assistant", reply⟩ })
    | none =>
      let in_progress : Bool := match st.booking_state with
        | some s => decide (s.stage = "collecting") || decide (s.stage = "confirm")
        | none => false
      if in_progress then
        match bflow st.booking_state (some user_input) with
        | some (response_text, new_state, payload) =>
          some (response_text, payload,
            { messages := add_message msgs1 ⟨"assistant", response_text⟩,
              booking_state := some new_state })
        | none => none
      else if detect_intent user_input = "booking" then
        match bflow st.booking_state (some user_input) with
        | some (response_text, new_state, payload) =>
          some (response_text, payload,
            { messages := add_message msgs1 ⟨"assistant", response_text⟩,
              booking_state := some new_state })
        | none => none
      else
        let rag_result := rag user_input (msgs1.drop (msgs1.length - 10))
        let answer := rag_answer_of rag_result
        some (answer, none, { st with messages := add_message msgs1 ⟨"assistant", answer⟩ })

/-- A sequence of `handle_user_message` turns (stopping if an exception
escapes, which cannot happen for router-produced booking states). -/
def runTurns (rag : String → List Message → RagResult) (bflow : BFlow) :
    ChatState → List String → ChatState
  | st, [] => st
  | st, input :: rest =>
    match handle_user_message rag bflow st input with
    | some (_, _, st') => runTurns rag bflow st' rest
    | none => st

/-! ## RAG pipeline: chunking (`rag_pipeline.py`) -/

/-- `RAG_CHUNK_SIZE = 512` (`config.py`). -/
def RAG_CHUNK_SIZE : Nat := 512

/-- `RAG_CHUNK_OVERLAP = 128` (`config.py`). -/
def RAG_CHUNK_OVERLAP : Nat := 128

/-- A document chunk (`DocumentChunk`). -/
structure DocumentChunk where
  text : String
  source : String
  page : Nat
deriving DecidableEq, Repr

/-- The window loop of `_chunk_text`, with explicit fuel: from cursor `start`,
take the window `[start, min (start+size) length)`; stop when it reaches the
end of the text, else move the cursor to `end - overlap` (Python
`max(0, end - overlap)`, which is truncated subtraction).  Fuel `0` models a
loop that has not finished — the Python loop does not terminate when the
cursor stops advancing. -/
def chunkFuel (size overlap length : Nat) : Nat → Nat → Option (List (Nat × Nat))
  | 0, _ => none
  | fuel + 1, start =>
    if start < length then
      let e := min (start + size) length
      if e = length then some [(start, e)]
      else
        match chunkFuel size overlap length fuel (e - overlap) with
        | some ws => some ((start, e) :: ws)
        | none => none
    else some []

/-- The `(start, end)` windows visited by `_chunk_text` on a text, with fuel
`length + 1` (enough for every terminating configuration, see the chunking
theorems; `none` means the source loop runs forever). -/
def chunk_windows (size overlap : Nat) (text : List Char) : Option (List (Nat × Nat)) :=
  chunkFuel size overlap text.length (text.length + 1) 0

/-- `_chunk_text`: strip each window, keep the non-empty ones as chunks. -/
def chunk_text (size overlap : Nat) (text : List Char) (source : String) (page : Nat) :
    Option (List DocumentChunk) :=
  (chunk_windows size overlap text).map (fun ws =>
    ws.filterMap (fun w =>
      let t := trimChars ((text.drop w.1).take (w.2 - w.1))
      if t.isEmpty then none else some ⟨String.mk t, source, page⟩))

/-! ## RAG pipeline: retrieval

The floating-point embedding vectors are modelled over `ℚ`; the embedding
providers (Gemini / the local model, with their normalisation) are external
collaborators, so `retrieve_relevant_chunks` takes the already-computed query
vector as a parameter, and the module-global chunk store and embedding matrix
as explicit arguments. -/

/-- Inner product of two vectors. -/
def innerProduct (x y : List ℚ) : ℚ := (List.zipWith (fun a b => a * b) x y).sum

/-- Modelled from the spec: the `faiss.IndexFlatIP.search` call is a library
collaborator whose code is not in the repository; §4.5 of the spec fixes its
contract as exact flat search — score every stored row by inner product with
the query and return the `k` best `(index, score)` pairs sorted descending by
score. -/
def faissSearch (matrix : List (List ℚ)) (q : List ℚ) (k : Nat) : List (Nat × ℚ) :=
  let scored := (List.range matrix.length).map (fun i => (i, innerProduct q (matrix.getD i [])))
  (List.insertionSort (fun a b => b.2 ≤ a.2) scored).take k

/-- `_retrieve_relevant_chunks`: guard the empty store, clamp `top_k` to the
chunk count, search, and keep the hits whose index is in range. -/
def retrieve_relevant_chunks (chunks : List DocumentChunk)
    (embeddings : Option (List (List ℚ))) (query_vec : List ℚ) (top_k : Nat) :
    List (DocumentChunk × ℚ) :=
  if chunks.isEmpty then []
  else
    match embeddings with
    | none => []
    | some m =>
      if (m.map List.length).sum = 0 then []
      else if query_vec.isEmpty then []
      else
        let hits := faissSearch m query_vec (min top_k chunks.length)
        hits.filterMap (fun hit =>
          if h : hit.1 < chunks.length then some (chunks.get ⟨hit.1, h⟩, hit.2) else none)

/-! ## Auxiliary definitions used by the theorems -/

/-- A field-indexed boolean vector from six booleans. -/
def bvec (t0 t1 t2 t3 t4 t5 : Bool) : FieldName → Bool
  | FieldName.name => t0
  | FieldName.email => t1
  | FieldName.phone => t2
  | FieldName.booking_type => t3
  | FieldName.date => t4
  | FieldName.time => t5

/-- The state built by a successful collection step: store the trimmed value
under the awaited field and clear `awaiting_field`. -/
def storeField (st : BookingState) (f : FieldName) (v : String) : BookingState :=
  { st with
    booking := insertB st.booking f v
    awaiting_field := none }

/-- The retained history contains an earlier user message with the sought
normalized content that is followed, later in the history, by an assistant
message. -/
def HasDupPair (history : List Message) (norm : String) : Prop :=
  ∃ p₁ u p₂ a p₃, history = p₁ ++ u :: p₂ ++ a :: p₃ ∧
    u.role = "user" ∧ normalize_text u.content = norm ∧ a.role = "assistant"


/-! ## Helper lemmas -/

/-- A quantifier over the six fields expands to a six-way conjunction. -/
lemma forall_fieldname {P : FieldName → Prop} :
    (∀ f, P f) ↔ P FieldName.name ∧ P FieldName.email ∧ P FieldName.phone ∧
      P FieldName.booking_type ∧ P FieldName.date ∧ P FieldName.time := by
  constructor
  · exact fun h => ⟨h _, h _, h _, h _, h _, h _⟩
  · rintro ⟨h0, h1, h2, h3, h4, h5⟩ g
    cases g <;> assumption

/-- `List.find?` over `REQUIRED_FIELDS` returns exactly the first field whose
bit is false, checked by enumeration over the 64 boolean vectors. -/
lemma nmf_spec : ∀ t0 t1 t2 t3 t4 t5 : Bool, ∀ f,
    (REQUIRED_FIELDS.find? (fun g => !bvec t0 t1 t2 t3 t4 t5 g) = some f ↔
      bvec t0 t1 t2 t3 t4 t5 f = false ∧
        ∀ g, fieldIdx g < fieldIdx f → bvec t0 t1 t2 t3 t4 t5 g = true) ∧
    (REQUIRED_FIELDS.find? (fun g => !bvec t0 t1 t2 t3 t4 t5 g) = none ↔
      ∀ g, bvec t0 t1 t2 t3 t4 t5 g = true) := by decide

/-- `find?` over `REQUIRED_FIELDS` for an arbitrary field predicate. -/
lemma find_first_missing_spec (bs : FieldName → Bool) :
    (∀ f, (REQUIRED_FIELDS.find? (fun g => !bs g) = some f ↔
      bs f = false ∧ ∀ g, fieldIdx g < fieldIdx f → bs g = true)) ∧
    (REQUIRED_FIELDS.find? (fun g => !bs g) = none ↔ ∀ g, bs g = true) := by
  have hb : bvec (bs FieldName.name) (bs FieldName.email) (bs FieldName.phone)
      (bs FieldName.booking_type) (bs FieldName.date) (bs FieldName.time) = bs := by
    funext g; cases g <;> rfl
  have key := nmf_spec (bs FieldName.name) (bs FieldName.email) (bs FieldName.phone)
    (bs FieldName.booking_type) (bs FieldName.date) (bs FieldName.time)
  rw [hb] at key
  exact ⟨fun f => (key f).1, (key FieldName.name).2⟩

/-- Validation never accepts a value that is empty after trimming. -/
lemma valid_trim_ne (f : FieldName) (v : String) (h : (validate_field f v).1 = true) :
    pyStrip v ≠ "" := by
  intro hv
  cases f <;>
    simp [validate_field, hv, show is_valid_email "" = false from rfl,
      show is_valid_date "" = false from rfl, show is_valid_time "" = false from rfl,
      show (("" : String).toList.filter Char.isDigit).length = 0 from rfl] at h

/-! ## Claim theorems: the booking state machine -/

/-- C9: starting `handle_booking_flow` with `state = None` returns, for every
user text, the collecting stage awaiting the `name` field over an empty
record, with the name prompt and no payload — the booking-initiating message
itself is never parsed or stored. -/
theorem fresh_booking_start (input : String) :
    handle_booking_flow none (some input) =
      some ("To get started, what's your full name?",
        { booking := emptyBooking, stage := "collecting",
          awaiting_field := some FieldName.name, confirmed := false }, none) := rfl

/-- C4: the next missing field is always the first unset (absent or empty)
field in the fixed order given by `fieldIdx`, it is `none` exactly when all
six are set, and inserting a validated value for a field makes
`detect_missing_fields` report that field present while every other field's
report is unchanged. -/
theorem next_missing_first_detect_insert (b : Booking) :
    (∀ f, (next_missing_field b = some f ↔
        truthy (b f) = false ∧ ∀ g, fieldIdx g < fieldIdx f → truthy (b g) = true)) ∧
    (next_missing_field b = none ↔ ∀ f, truthy (b f) = true) ∧
    (∀ f v, (validate_field f v).1 = true →
      detect_missing_fields (insertB b f (pyStrip v)) f = false ∧
      ∀ g, g ≠ f → detect_missing_fields (insertB b f (pyStrip v)) g = detect_missing_fields b g) := by
  obtain ⟨h1, h2⟩ := find_first_missing_spec (fun g => truthy (b g))
  refine ⟨h1, h2, ?_⟩
  intro f v hv
  have hne : pyStrip v ≠ "" := valid_trim_ne f v hv
  constructor
  · simp [detect_missing_fields, insertB, truthy, hne]
  · intro g hg
    simp [detect_missing_fields, insertB, hg]

/-- Witness for C4 at a concrete record, field and value. -/
theorem next_missing_first_detect_insert_witness :
    detect_missing_fields (insertB emptyBooking FieldName.name (pyStrip "  Alice  "))
      FieldName.name = false ∧
    detect_missing_fields (insertB emptyBooking FieldName.name (pyStrip "  Alice  "))
      FieldName.email = detect_missing_fields emptyBooking FieldName.email := by
  have h := (next_missing_first_detect_insert emptyBooking).2.2 FieldName.name "  Alice  "
    (by decide)
  exact ⟨h.1, h.2 FieldName.email (by decide)⟩

/-- A truthy optional string is a non-empty value. -/
lemma truthy_some {o : Option String} (h : truthy o = true) : ∃ v, o = some v := by
  cases o with
  | none => simp [truthy] at h
  | some v => exact ⟨v, rfl⟩

/-- C1: in the confirm stage the user text is interpreted case-insensitively
after trimming — an affirmative token completes the booking and emits a
payload carrying exactly the six stored (trimmed) field values, a negative
token cancels with no payload, and any other input, empty or not, re-prompts
for yes/no leaving the state unchanged. -/
theorem confirm_stage_spec (st : BookingState) (input : String)
    (hstage : st.stage = "confirm") :
    (pyStrip input = "" →
      handle_booking_flow (some st) (some input) =
        some ("Please respond with 'yes' to confirm the booking or 'no' to cancel.", st, none)) ∧
    (∀ n e p bt d t, st.booking FieldName.name = some n → st.booking FieldName.email = some e →
      st.booking FieldName.phone = some p → st.booking FieldName.booking_type = some bt →
      st.booking FieldName.date = some d → st.booking FieldName.time = some t →
      affirmatives.contains (pyLower (pyStrip input)) = true →
      handle_booking_flow (some st) (some input) =
        some ("Great, your booking is confirmed!",
          { st with confirmed := true, stage := "completed" },
          some ⟨pyStrip n, pyStrip e, pyStrip p, pyStrip bt, pyStrip d, pyStrip t⟩)) ∧
    (negatives.contains (pyLower (pyStrip input)) = true →
      handle_booking_flow (some st) (some input) =
        some ("Okay, I’ve cancelled this booking request. If you’d like to start over, just let me know.",
          { st with stage := "cancelled", confirmed := false }, none)) ∧
    (pyStrip input ≠ "" →
      affirmatives.contains (pyLower (pyStrip input)) = false →
      negatives.contains (pyLower (pyStrip input)) = false →
      handle_booking_flow (some st) (some input) =
        some ("Please answer with 'yes' to confirm the booking or 'no' to cancel.", st, none)) := by
  refine ⟨?_, ?_, ?_, ?_⟩
  · intro h
    simp [handle_booking_flow, hstage, h]
  · intro n e p bt d t hn he hp hbt hd ht haff
    have hne : pyStrip input ≠ "" := by
      intro h0; rw [h0] at haff; exact absurd haff (by decide)
    have haff' : pyLower (pyStrip input) ∈ affirmatives := by simpa using haff
    simp [handle_booking_flow, hstage, hne, haff', mkPayload, hn, he, hp, hbt, hd, ht]
  · intro hneg
    have hne : pyStrip input ≠ "" := by
      intro h0; rw [h0] at hneg; exact absurd hneg (by decide)
    have hneg' : pyLower (pyStrip input) ∈ negatives := by simpa using hneg
    have hcases : pyLower (pyStrip input) = "no" ∨ pyLower (pyStrip input) = "n" ∨
        pyLower (pyStrip input) = "cancel" := by
      simpa [negatives] using hneg'
    have haffF : pyLower (pyStrip input) ∉ affirmatives := by
      rcases hcases with h | h | h <;> simp [affirmatives, h]
    simp [handle_booking_flow, hstage, hne, haffF, hneg']
  · intro hne haffF hnegF
    have haffF' : pyLower (pyStrip input) ∉ affirmatives := by simpa using haffF
    have hnegF' : pyLower (pyStrip input) ∉ negatives := by simpa using hnegF
    simp [handle_booking_flow, hstage, hne, haffF', hnegF']

/-- Witness for C1 at a concrete confirm-stage state and the input `" YES "`. -/
theorem confirm_stage_spec_witness :
    handle_booking_flow
      (some { booking := fun _ => some " v ", stage := "confirm",
              awaiting_field := none, confirmed := false }) (some " YES ") =
      some ("Great, your booking is confirmed!",
        { booking := fun _ => some " v ", stage := "completed",
          awaiting_field := none, confirmed := true },
        some ⟨"v", "v", "v", "v", "v", "v"⟩) :=
  (confirm_stage_spec
    { booking := fun _ => some " v ", stage := "confirm",
      awaiting_field := none, confirmed := false } " YES " rfl).2.1
    " v " " v " " v " " v " " v " " v " rfl rfl rfl rfl rfl rfl (by decide)

/-- C5: in the collecting stage with an awaited field and a non-empty input,
failed validation surfaces the error message verbatim with no payload and
leaves the state entirely unchanged; successful validation stores the
trimmed value under the awaited field, clears `awaiting_field`, and the turn
continues from exactly that updated state. -/
theorem collecting_validation_spec (st : BookingState) (f : FieldName) (input msg : String)
    (hstage : st.stage = "collecting") (hawait : st.awaiting_field = some f)
    (hne : pyStrip input ≠ "") :
    (validate_field f (pyStrip input) = (false, some msg) →
      handle_booking_flow (some st) (some input) = some (msg, st, none)) ∧
    ((validate_field f (pyStrip input)).1 = true →
      (storeField st f (pyStrip (pyStrip input))).awaiting_field = none ∧
      (storeField st f (pyStrip (pyStrip input))).booking f = some (pyStrip (pyStrip input)) ∧
      handle_booking_flow (some st) (some input) =
        afterCollect (storeField st f (pyStrip (pyStrip input)))) := by
  constructor
  · intro herr
    simp [handle_booking_flow, hstage, hawait, hne, herr]
  · intro hvalid
    rcases hx : validate_field f (pyStrip input) with ⟨ok, err⟩
    rw [hx] at hvalid
    subst hvalid
    refine ⟨rfl, by simp [storeField, insertB], ?_⟩
    simp [handle_booking_flow, storeField, hstage, hawait, hne, hx]

/-- Witness for C5: an invalid email is rejected verbatim with no state
change. -/
theorem collecting_validation_spec_witness :
    handle_booking_flow
      (some { booking := emptyBooking, stage := "collecting",
              awaiting_field := some FieldName.email, confirmed := false })
      (some "not-an-email") =
      some ("That email address doesn't look valid. Please enter a valid email (e.g. name@example.com).",
        { booking := emptyBooking, stage := "collecting",
          awaiting_field := some FieldName.email, confirmed := false }, none) :=
  (collecting_validation_spec _ FieldName.email "not-an-email" _ rfl rfl (by decide)).1
    (by decide)

/-- C6 (amended): in stage completed with every required field still set,
`handle_booking_flow` re-emits the payload of stored trimmed values with the
already-confirmed message and no state change; but when a required field is
unset the flow does not return just a message — it re-enters collecting,
setting the stage to collecting and awaiting the first missing field, with
that field's prompt and no payload. -/
theorem completed_stage_spec (st : BookingState) (input : Option String)
    (hstage : st.stage = "completed") :
    ((∀ f, truthy (st.booking f) = true) →
      ∃ payload, mkPayload st.booking = some payload ∧
        handle_booking_flow (some st) input =
          some ("This booking has already been confirmed.", st, some payload)) ∧
    (∀ f, next_missing_field st.booking = some f →
      handle_booking_flow (some st) input =
        some (field_prompt f,
          { st with stage := "collecting", awaiting_field := some f }, none)) := by
  constructor
  · intro hall
    have hnone : next_missing_field st.booking = none :=
      (find_first_missing_spec (fun g => truthy (st.booking g))).2.mpr hall
    obtain ⟨n, hn⟩ := truthy_some (hall FieldName.name)
    obtain ⟨e, he⟩ := truthy_some (hall FieldName.email)
    obtain ⟨p, hp⟩ := truthy_some (hall FieldName.phone)
    obtain ⟨bt, hbt⟩ := truthy_some (hall FieldName.booking_type)
    obtain ⟨d, hd⟩ := truthy_some (hall FieldName.date)
    obtain ⟨t, ht⟩ := truthy_some (hall FieldName.time)
    refine ⟨⟨pyStrip n, pyStrip e, pyStrip p, pyStrip bt, pyStrip d, pyStrip t⟩, ?_, ?_⟩
    · simp [mkPayload, hn, he, hp, hbt, hd, ht]
    · have hall' : REQUIRED_FIELDS.all (fun k => truthy (st.booking k)) = true := by
        simp [REQUIRED_FIELDS, hall]
      simp [handle_booking_flow, afterCollect, hstage, hnone, hall', mkPayload,
        hn, he, hp, hbt, hd, ht]
  · intro f hmiss
    simp [handle_booking_flow, afterCollect, hstage, hmiss]

/-- Witness for the amended C6 at a concrete fully-set completed state. -/
theorem completed_stage_spec_witness :
    ∃ payload, mkPayload (fun _ => some " v ") = some payload ∧
      handle_booking_flow
        (some { booking := fun _ => some " v ", stage := "completed",
                awaiting_field := none, confirmed := true }) (some "again") =
        some ("This booking has already been confirmed.",
          { booking := fun _ => some " v ", stage := "completed",
            awaiting_field := none, confirmed := true }, some payload) :=
  (completed_stage_spec
    { booking := fun _ => some " v ", stage := "completed",
      awaiting_field := none, confirmed := true } (some "again") rfl).1
    (fun f => by cases f <;> decide)

/-- Counterexample to C6 as stated: a completed state whose record is empty
is not left unchanged with just a message — the flow mutates the stage back
to collecting and prompts for the name field. -/
theorem completed_missing_reenters_collecting :
    handle_booking_flow
      (some { booking := emptyBooking, stage := "completed",
              awaiting_field := none, confirmed := true }) (some "hi") =
      some ("To get started, what's your full name?",
        { booking := emptyBooking, stage := "collecting",
          awaiting_field := some FieldName.name, confirmed := true }, none) ∧
    ("collecting" : String) ≠ "completed" :=
  ⟨rfl, by decide⟩

/-! ## Claim theorems: bounded history (C2) -/

/-- One `_add_message` call always leaves at most 25 messages. -/
lemma add_message_length_le (l : List Message) (m : Message) :
    (add_message l m).length ≤ 25 := by
  simp only [add_message, MAX_MESSAGES]
  split
  next h => simp only [List.length_drop]; omega
  next h => simp only [List.length_append, List.length_cons, List.length_nil] at *; omega

/-- `_add_message` keeps a suffix of the appended sequence (oldest evicted
first). -/
lemma add_message_suffix (l : List Message) (m : Message) :
    add_message l m <:+ l ++ [m] := by
  simp only [add_message, MAX_MESSAGES]
  split
  next => exact List.drop_suffix _ _
  next => exact List.suffix_refl _

/-- Folding `_add_message` over any batch keeps a suffix of the full
append-order sequence. -/
lemma foldl_add_message_suffix (init : List Message) (pend : List Message) :
    List.foldl add_message init pend <:+ init ++ pend := by
  induction pend generalizing init with
  | nil =>
    rw [List.foldl_nil, List.append_nil]
  | cons m rest ih =>
    have h1 : add_message init m <:+ init ++ [m] := add_message_suffix init m
    have h2 : List.foldl add_message init (m :: rest) <:+ add_message init m ++ rest :=
      ih (add_message init m)
    have h3 : add_message init m ++ rest <:+ (init ++ [m]) ++ rest := by
      obtain ⟨t, ht⟩ := h1
      exact ⟨t, by rw [← List.append_assoc, ht]⟩
    have := h2.trans h3
    simpa using this

/-- Folding `_add_message` never pushes the history over 25 entries. -/
lemma foldl_add_message_length (init : List Message) (pend : List Message)
    (h : init.length ≤ 25) : (List.foldl add_message init pend).length ≤ 25 := by
  induction pend generalizing init with
  | nil => simpa using h
  | cons m rest ih => exact ih _ (add_message_length_le init m)

/-- Every `handle_user_message` turn changes the history only by a fold of
`_add_message` calls over the turn's appended messages. -/
lemma handle_user_message_messages (rag : String → List Message → RagResult) (bflow : BFlow)
    (st : ChatState) (input : String) :
    ∃ pend, (handle_user_message rag bflow st input).map (fun t => t.2.2.messages) =
      (handle_user_message rag bflow st input).map
        (fun _ => List.foldl add_message st.messages pend) := by
  by_cases h0 : pyStrip input = ""
  · refine ⟨[⟨"assistant", "Please type a message so I can assist you."⟩], ?_⟩
    simp only [handle_user_message, h0, if_true]
    rfl
  · cases hf : find_previous_answer (add_message st.messages ⟨"user", pyStrip input⟩)
        (pyStrip input) with
    | some prev =>
      refine ⟨[⟨"user", pyStrip input⟩,
        ⟨"assistant", "You asked a similar question earlier. Here’s the answer I shared before:

" ++ prev⟩], ?_⟩
      simp only [handle_user_message, hf, if_neg h0]
      rfl
    | none =>
      by_cases hip : (match st.booking_state with
          | some s => decide (s.stage = "collecting") || decide (s.stage = "confirm")
          | none => false) = true
      · cases hbf : bflow st.booking_state (some (pyStrip input)) with
        | some trip =>
          refine ⟨[⟨"user", pyStrip input⟩, ⟨"assistant", trip.1⟩], ?_⟩
          simp only [handle_user_message, hf, hip, hbf, if_neg h0, if_true]
          rfl
        | none =>
          refine ⟨[], ?_⟩
          simp only [handle_user_message, hf, hip, hbf, if_neg h0, if_true]
          rfl
      · by_cases hint : detect_intent (pyStrip input) = "booking"
        · cases hbf : bflow st.booking_state (some (pyStrip input)) with
          | some trip =>
            refine ⟨[⟨"user", pyStrip input⟩, ⟨"assistant", trip.1⟩], ?_⟩
            simp only [handle_user_message, hf, hip, hint, hbf, if_neg h0, if_true]
            rfl
          | none =>
            refine ⟨[], ?_⟩
            simp only [handle_user_message, hf, hip, hint, hbf, if_neg h0, if_true]
            rfl
        · refine ⟨[⟨"user", pyStrip input⟩, ⟨"assistant", rag_answer_of
            (rag (pyStrip input)
              ((add_message st.messages ⟨"user", pyStrip input⟩).drop
                ((add_message st.messages ⟨"user", pyStrip input⟩).length - 10)))⟩], ?_⟩
          simp only [handle_user_message, hf, hip, hint, if_neg h0, if_neg hint]
          rfl

/-- Any run of turns changes the history only by a fold of `_add_message`. -/
lemma runTurns_messages (rag : String → List Message → RagResult) (bflow : BFlow) :
    ∀ (inputs : List String) (st : ChatState),
      ∃ pend, (runTurns rag bflow st inputs).messages =
        List.foldl add_message st.messages pend := by
  intro inputs
  induction inputs with
  | nil => exact fun st => ⟨[], rfl⟩
  | cons i rest ih =>
    intro st
    unfold runTurns
    split
    next r p st' heq =>
      obtain ⟨p1, hp1⟩ := handle_user_message_messages rag bflow st i
      rw [heq] at hp1
      simp only [Option.map_some'] at hp1
      obtain ⟨p2, hp2⟩ := ih st'
      refine ⟨p1 ++ p2, ?_⟩
      rw [hp2, Option.some.inj hp1, List.foldl_append]
    next => exact ⟨[], rfl⟩

/-- C2: after any number of `handle_user_message` turns from a history within
the cap, the history is exactly a fold of `_add_message` over the appended
messages, stays a suffix of the full append-order sequence (oldest entries
evicted first), and never exceeds 25 entries. -/
theorem history_bound_spec (rag : String → List Message → RagResult) (bflow : BFlow)
    (st0 : ChatState) (inputs : List String) (h0 : st0.messages.length ≤ 25) :
    ∃ pend, (runTurns rag bflow st0 inputs).messages =
        List.foldl add_message st0.messages pend ∧
      (runTurns rag bflow st0 inputs).messages <:+ st0.messages ++ pend ∧
      (runTurns rag bflow st0 inputs).messages.length ≤ 25 := by
  obtain ⟨pend, hpend⟩ := runTurns_messages rag bflow inputs st0
  refine ⟨pend, hpend, ?_, ?_⟩
  · rw [hpend]; exact foldl_add_message_suffix _ _
  · rw [hpend]; exact foldl_add_message_length _ _ h0

/-- Witness for C2: one concrete turn from the empty session. -/
theorem history_bound_spec_witness :
    ∃ pend, (runTurns (fun _ _ => ⟨true, some "A", none⟩) handle_booking_flow
        ⟨[], none⟩ ["hi"]).messages = List.foldl add_message [] pend ∧
      (runTurns (fun _ _ => ⟨true, some "A", none⟩) handle_booking_flow
        ⟨[], none⟩ ["hi"]).messages <:+ [] ++ pend ∧
      (runTurns (fun _ _ => ⟨true, some "A", none⟩) handle_booking_flow
        ⟨[], none⟩ ["hi"]).messages.length ≤ 25 :=
  history_bound_spec (fun _ _ => ⟨true, some "A", none⟩) handle_booking_flow
    ⟨[], none⟩ ["hi"] (by decide)

/-! ## Claim theorems: duplicate-question memory (C3, C10) -/

/-- `find?` for the next assistant message splits the history at the first
assistant entry. -/
lemma find?_assistant_split (l : List Message) (x : Message)
    (h : l.find? (fun m => m.role == "assistant") = some x) :
    ∃ l1 l2, l = l1 ++ x :: l2 ∧ x.role = "assistant" ∧ ∀ y ∈ l1, y.role ≠ "assistant" := by
  induction l with
  | nil => simp at h
  | cons m rest ih =>
    rw [List.find?_cons] at h
    rcases hm : (m.role == "assistant") with _ | _
    · rw [hm] at h
      obtain ⟨l1, l2, hl, hx, hno⟩ := ih h
      refine ⟨m :: l1, l2, by simp [hl], hx, ?_⟩
      intro y hy
      rcases List.mem_cons.mp hy with rfl | hy'
      · simpa using hm
      · exact hno y hy'
    · rw [hm] at h
      obtain rfl := Option.some.inj h
      exact ⟨[], rest, rfl, by simpa using hm, by simp⟩

/-- When the scan returns an answer, the history splits as: an earlier
matching user message, then some messages with no assistant among them, then
the assistant message whose content is returned verbatim. -/
lemma find_prev_aux_some (norm : String) :
    ∀ (l : List Message) (ans : String), find_previous_answer_aux norm l = some ans →
      ∃ p₁ u p₂ a p₃, l = p₁ ++ u :: p₂ ++ a :: p₃ ∧ u.role = "user" ∧
        normalize_text u.content = norm ∧ a.role = "assistant" ∧
        (∀ y ∈ p₂, y.role ≠ "assistant") ∧ a.content = ans := by
  intro l
  induction l with
  | nil => intro ans h; simp [find_previous_answer_aux] at h
  | cons m rest ih =>
    intro ans h
    rw [find_previous_answer_aux] at h
    split at h
    next hm =>
      split at h
      next a0 heq =>
        obtain rfl := Option.some.inj h
        obtain ⟨x, hx, hxc⟩ := Option.map_eq_some'.mp heq
        obtain ⟨l1, l2, hl, hxrole, hno⟩ := find?_assistant_split rest x hx
        exact ⟨[], m, l1, x, l2, by simp [hl], hm.1, hm.2, hxrole, hno, hxc⟩
      next heq =>
        obtain ⟨p₁, u, p₂, a, p₃, hl, hu, hn, ha, hno, hc⟩ := ih ans h
        exact ⟨m :: p₁, u, p₂, a, p₃, by simp [hl], hu, hn, ha, hno, hc⟩
    next hm =>
      obtain ⟨p₁, u, p₂, a, p₃, hl, hu, hn, ha, hno, hc⟩ := ih ans h
      exact ⟨m :: p₁, u, p₂, a, p₃, by simp [hl], hu, hn, ha, hno, hc⟩

/-- Conversely, whenever the history holds a matching user message followed
by a later assistant message, the scan finds an answer. -/
lemma find_prev_aux_ne_none (norm : String) :
    ∀ l : List Message, HasDupPair l norm → find_previous_answer_aux norm l ≠ none := by
  intro l
  induction l with
  | nil =>
    rintro ⟨p₁, u, p₂, a, p₃, hl, -⟩
    cases p₁ <;> simp at hl
  | cons m rest ih =>
    rintro ⟨p₁, u, p₂, a, p₃, hl, hu, hn, ha⟩
    rw [find_previous_answer_aux]
    cases p₁ with
    | nil =>
      simp only [List.nil_append, List.cons.injEq] at hl
      obtain ⟨rfl, rfl⟩ := hl
      rw [if_pos ⟨hu, hn⟩]
      have hfind : ((p₂ ++ a :: p₃).find? (fun x => x.role == "assistant")).isSome := by
        rw [List.find?_isSome]
        exact ⟨a, by simp, by simp [ha]⟩
      obtain ⟨x, hx⟩ := Option.isSome_iff_exists.mp hfind
      simp only [List.append_eq]
      rw [hx]
      simp
    | cons m' p₁' =>
      simp only [List.cons_append, List.cons.injEq] at hl
      obtain ⟨rfl, hl'⟩ := hl
      have hrest : HasDupPair rest norm := ⟨p₁', u, p₂, a, p₃, hl', hu, hn, ha⟩
      split
      · split
        · simp
        · exact ih hrest
      · exact ih hrest

/-- A first-time question cannot match itself: when no retained message from
before the turn matches, appending the user message and scanning still finds
nothing, because nothing follows the appended message. -/
lemma find_prev_aux_append_self (norm : String) (c : String)
    (hnorm : normalize_text c = norm) :
    ∀ h : List Message,
      (∀ m ∈ h, ¬(m.role = "user" ∧ normalize_text m.content = norm)) →
      find_previous_answer_aux norm (h ++ [⟨"user", c⟩]) = none := by
  intro h
  induction h with
  | nil =>
    intro _
    rw [List.nil_append, find_previous_answer_aux]
    rw [if_pos ⟨rfl, hnorm⟩]
    simp [find_previous_answer_aux]
  | cons m rest ih =>
    intro hno
    rw [List.cons_append, find_previous_answer_aux]
    rw [if_neg (hno m (by simp))]
    exact ih (fun x hx => hno x (by simp [hx]))

/-- `_add_message` is an append with some oldest entries dropped. -/
lemma add_message_eq_drop (l : List Message) (m : Message) :
    ∃ k, k ≤ l.length ∧ add_message l m = l.drop k ++ [m] := by
  simp only [add_message, MAX_MESSAGES]
  split
  next h =>
    refine ⟨(l ++ [m]).length - 25, ?_, ?_⟩
    · simp only [List.length_append, List.length_cons, List.length_nil] at *
      omega
    · rw [List.drop_append_of_le_length]
      simp only [List.length_append, List.length_cons, List.length_nil] at *
      omega
  next h => exact ⟨0, by simp, by simp⟩

/-- C3: when the retained history at scan time holds an earlier user message
with the same normalized form followed by a later assistant message,
`handle_user_message` replies with that earlier assistant answer verbatim, no
booking payload, and the result is the same for every RAG collaborator and
every booking state machine — neither is invoked on this turn. -/
theorem duplicate_question_reuse (st : ChatState) (input : String)
    (hne : pyStrip input ≠ "")
    (hdup : HasDupPair (add_message st.messages ⟨"user", pyStrip input⟩)
      (normalize_text (pyStrip input))) :
    ∃ answer,
      (∃ p₁ u p₂ a p₃,
        add_message st.messages ⟨"user", pyStrip input⟩ = p₁ ++ u :: p₂ ++ a :: p₃ ∧
        u.role = "user" ∧ normalize_text u.content = normalize_text (pyStrip input) ∧
        a.role = "assistant" ∧ (∀ y ∈ p₂, y.role ≠ "assistant") ∧ a.content = answer) ∧
      ∀ rag bflow,
        handle_user_message rag bflow st input =
          some ("You asked a similar question earlier. Here’s the answer I shared before:\n\n" ++ answer,
            none,
            { st with
              messages := add_message (add_message st.messages ⟨"user", pyStrip input⟩)
                ⟨"assistant",
                  "You asked a similar question earlier. Here’s the answer I shared before:\n\n" ++ answer⟩ }) := by
  have hsome := find_prev_aux_ne_none (normalize_text (pyStrip input)) _ hdup
  obtain ⟨answer, ha⟩ := Option.ne_none_iff_exists'.mp hsome
  refine ⟨answer, find_prev_aux_some _ _ _ ha, ?_⟩
  intro rag bflow
  have hfp : find_previous_answer (add_message st.messages ⟨"user", pyStrip input⟩)
      (pyStrip input) = some answer := ha
  simp [handle_user_message, hne, hfp]

/-- Witness for C3: re-asking `"hi"` as `"HI"` returns the stored answer. -/
theorem duplicate_question_reuse_witness :
    ∃ answer,
      (∃ p₁ u p₂ a p₃,
        add_message [⟨"user", "hi"⟩, ⟨"assistant", "hello"⟩] ⟨"user", "HI"⟩ =
          p₁ ++ u :: p₂ ++ a :: p₃ ∧
        u.role = "user" ∧ normalize_text u.content = normalize_text "HI" ∧
        a.role = "assistant" ∧ (∀ y ∈ p₂, y.role ≠ "assistant") ∧ a.content = answer) ∧
      ∀ rag bflow,
        handle_user_message rag bflow ⟨[⟨"user", "hi"⟩, ⟨"assistant", "hello"⟩], none⟩ "HI" =
          some ("You asked a similar question earlier. Here’s the answer I shared before:\n\n" ++ answer,
            none,
            ⟨add_message (add_message [⟨"user", "hi"⟩, ⟨"assistant", "hello"⟩] ⟨"user", "HI"⟩)
              ⟨"assistant",
                "You asked a similar question earlier. Here’s the answer I shared before:\n\n" ++ answer⟩,
              none⟩) :=
  duplicate_question_reuse ⟨[⟨"user", "hi"⟩, ⟨"assistant", "hello"⟩], none⟩ "HI"
    (by decide)
    ⟨[], ⟨"user", "hi"⟩, [], ⟨"assistant", "hello"⟩, [⟨"user", "HI"⟩], by decide, rfl,
      by decide, rfl⟩

/-- C10 (amended): the duplicate branch fires exactly when the retained
history as it stands after appending the current user message — not the
pre-turn history, whose oldest entry may just have been evicted — contains
an earlier matching user message followed by a later assistant message; a
question with no earlier match never matches its own freshly appended copy,
and whenever the scan finds an answer the turn returns it without invoking
the RAG answerer or the booking machine. -/
theorem duplicate_branch_iff (st : ChatState) (input : String) (hne : pyStrip input ≠ "") :
    (find_previous_answer (add_message st.messages ⟨"user", pyStrip input⟩)
        (pyStrip input) ≠ none ↔
      HasDupPair (add_message st.messages ⟨"user", pyStrip input⟩)
        (normalize_text (pyStrip input))) ∧
    ((∀ m ∈ st.messages,
        ¬(m.role = "user" ∧ normalize_text m.content = normalize_text (pyStrip input))) →
      find_previous_answer (add_message st.messages ⟨"user", pyStrip input⟩)
        (pyStrip input) = none) ∧
    (∀ answer,
      find_previous_answer (add_message st.messages ⟨"user", pyStrip input⟩)
        (pyStrip input) = some answer →
      ∀ rag bflow,
        handle_user_message rag bflow st input =
          some ("You asked a similar question earlier. Here’s the answer I shared before:\n\n" ++ answer,
            none,
            { st with
              messages := add_message (add_message st.messages ⟨"user", pyStrip input⟩)
                ⟨"assistant",
                  "You asked a similar question earlier. Here’s the answer I shared before:\n\n" ++ answer⟩ })) := by
  refine ⟨⟨?_, fun h => find_prev_aux_ne_none _ _ h⟩, ?_, ?_⟩
  · intro hne'
    obtain ⟨a, ha⟩ := Option.ne_none_iff_exists'.mp hne'
    obtain ⟨p₁, u, p₂, a', p₃, hl, hu, hn, ha', -, -⟩ := find_prev_aux_some _ _ _ ha
    exact ⟨p₁, u, p₂, a', p₃, hl, hu, hn, ha'⟩
  · intro hno
    obtain ⟨k, hk, heq⟩ := add_message_eq_drop st.messages ⟨"user", pyStrip input⟩
    have := find_prev_aux_append_self (normalize_text (pyStrip input)) (pyStrip input) rfl
      (st.messages.drop k) (fun m hm => hno m (List.drop_subset k st.messages hm))
    rw [show find_previous_answer (add_message st.messages ⟨"user", pyStrip input⟩)
        (pyStrip input) = find_previous_answer_aux (normalize_text (pyStrip input))
          (add_message st.messages ⟨"user", pyStrip input⟩) from rfl, heq]
    exact this
  · intro answer ha rag bflow
    simp [handle_user_message, hne, ha]

/-- Witness for the amended C10 at a concrete two-message history. -/
theorem duplicate_branch_iff_witness :
    (find_previous_answer (add_message [⟨"user", "q"⟩, ⟨"assistant", "ans"⟩] ⟨"user", "q"⟩)
        "q" ≠ none ↔
      HasDupPair (add_message [⟨"user", "q"⟩, ⟨"assistant", "ans"⟩] ⟨"user", "q"⟩)
        (normalize_text "q")) ∧
    ((∀ m ∈ ([⟨"user", "q"⟩, ⟨"assistant", "ans"⟩] : List Message),
        ¬(m.role = "user" ∧ normalize_text m.content = normalize_text "q")) →
      find_previous_answer (add_message [⟨"user", "q"⟩, ⟨"assistant", "ans"⟩] ⟨"user", "q"⟩)
        "q" = none) ∧
    (∀ answer,
      find_previous_answer (add_message [⟨"user", "q"⟩, ⟨"assistant", "ans"⟩] ⟨"user", "q"⟩)
        "q" = some answer →
      ∀ rag bflow,
        handle_user_message rag bflow ⟨[⟨"user", "q"⟩, ⟨"assistant", "ans"⟩], none⟩ "q" =
          some ("You asked a similar question earlier. Here’s the answer I shared before:\n\n" ++ answer,
            none,
            ⟨add_message (add_message [⟨"user", "q"⟩, ⟨"assistant", "ans"⟩] ⟨"user", "q"⟩)
              ⟨"assistant",
                "You asked a similar question earlier. Here’s the answer I shared before:\n\n" ++ answer⟩,
              none⟩)) :=
  duplicate_branch_iff ⟨[⟨"user", "q"⟩, ⟨"assistant", "ans"⟩], none⟩ "q" (by decide)

/-- Counterexample to C10 as stated: with a full 25-message pre-turn history
whose only matching pair sits at the very front, the pre-turn history does
contain an earlier matching user message followed by an assistant message,
yet appending the new user message evicts that pair's user entry, the scan
finds nothing, and the turn goes to the general/RAG path instead of the
duplicate branch. -/
theorem duplicate_branch_eviction_counterexample :
    ((⟨"user", "hi"⟩ :: ⟨"assistant", "hello"⟩ ::
        List.replicate 23 ⟨"assistant", "x"⟩ : List Message).length = 25 ∧
      HasDupPair (⟨"user", "hi"⟩ :: ⟨"assistant", "hello"⟩ ::
        List.replicate 23 ⟨"assistant", "x"⟩) (normalize_text "hi")) ∧
    find_previous_answer
      (add_message (⟨"user", "hi"⟩ :: ⟨"assistant", "hello"⟩ ::
        List.replicate 23 ⟨"assistant", "x"⟩) ⟨"user", "hi"⟩) "hi" = none ∧
    (handle_user_message (fun _ _ => ⟨true, some "RAGANSWER", none⟩) handle_booking_flow
        ⟨⟨"user", "hi"⟩ :: ⟨"assistant", "hello"⟩ ::
          List.replicate 23 ⟨"assistant", "x"⟩, none⟩
        "hi").map (fun t => (t.1, t.2.1)) = some ("RAGANSWER", none) := by
  refine ⟨⟨by decide, ⟨[], ⟨"user", "hi"⟩, [], ⟨"assistant", "hello"⟩,
    List.replicate 23 ⟨"assistant", "x"⟩, by decide, rfl, rfl, rfl⟩⟩, by decide, by decide⟩

/-! ## Claim theorems: retrieval (C7) -/

/-- `filterMap` keeps the length when every element maps to `some`. -/
lemma length_filterMap_of_isSome {α β : Type} (f : α → Option β) :
    ∀ l : List α, (∀ x ∈ l, (f x).isSome) → (l.filterMap f).length = l.length := by
  intro l
  induction l with
  | nil => intro _; rfl
  | cons x rest ih =>
    intro hall
    rw [List.filterMap_cons]
    cases hfx : f x with
    | none =>
      have := hall x (by simp)
      rw [hfx] at this
      simp at this
    | some y =>
      simp only [List.length_cons]
      rw [← ih (fun z hz => hall z (by simp [hz]))]

/-- C7: retrieval output is sorted by non-increasing score; with one
embedding row per chunk and a non-degenerate store and query, the result
length is the requested count clamped to the corpus size (so an
over-large `top_k` returns exactly corpus-size results); and an empty chunk
store or absent embedding matrix yields the empty list. -/
theorem retrieval_sorted_clamped (chunks : List DocumentChunk)
    (embeddings : Option (List (List ℚ))) (query_vec : List ℚ) (top_k : Nat) :
    List.Pairwise (fun a b : DocumentChunk × ℚ => b.2 ≤ a.2)
      (retrieve_relevant_chunks chunks embeddings query_vec top_k) ∧
    (∀ m, embeddings = some m → m.length = chunks.length →
      (m.map List.length).sum ≠ 0 → query_vec ≠ [] →
      (retrieve_relevant_chunks chunks embeddings query_vec top_k).length =
        min top_k chunks.length) ∧
    (chunks = [] ∨ embeddings = none →
      retrieve_relevant_chunks chunks embeddings query_vec top_k = []) := by
  haveI htotal : IsTotal (Nat × ℚ) (fun a b => b.2 ≤ a.2) := ⟨fun a b => le_total b.2 a.2⟩
  haveI htrans : IsTrans (Nat × ℚ) (fun a b => b.2 ≤ a.2) := ⟨fun _ _ _ h1 h2 => h2.trans h1⟩
  refine ⟨?_, ?_, ?_⟩
  · unfold retrieve_relevant_chunks
    split
    next => exact List.Pairwise.nil
    next =>
      split
      next => exact List.Pairwise.nil
      next m =>
        split
        next => exact List.Pairwise.nil
        next =>
          split
          next => exact List.Pairwise.nil
          next =>
            have hsort := List.sorted_insertionSort (fun a b : Nat × ℚ => b.2 ≤ a.2)
              ((List.range m.length).map
                (fun i => (i, innerProduct query_vec (m.getD i []))))
            have htake : List.Pairwise (fun a b : Nat × ℚ => b.2 ≤ a.2)
                (faissSearch m query_vec (min top_k chunks.length)) :=
              hsort.sublist (List.take_sublist _ _)
            rw [List.pairwise_filterMap]
            refine htake.imp ?_
            intro a b hab x hx y hy
            by_cases ha : a.1 < chunks.length
            · simp only [ha, dif_pos, Option.mem_def, Option.some.injEq] at hx
              by_cases hb : b.1 < chunks.length
              · simp only [hb, dif_pos, Option.mem_def, Option.some.injEq] at hy
                rw [← hx, ← hy]
                exact hab
              · simp [hb] at hy
            · simp [ha] at hx
  · intro m hm hrows hnz hq
    subst hm
    have hch : ¬chunks.isEmpty := by
      intro hempty
      rw [List.isEmpty_iff] at hempty
      rw [hempty] at hrows
      simp only [List.length_nil, List.length_eq_zero] at hrows
      rw [hrows] at hnz
      simp at hnz
    have hq' : ¬query_vec.isEmpty := by
      intro hempty
      rw [List.isEmpty_iff] at hempty
      exact hq hempty
    have hmem : ∀ x ∈ faissSearch m query_vec (min top_k chunks.length),
        x.1 < chunks.length := by
      intro x hx
      have hx1 : x ∈ List.insertionSort (fun a b : Nat × ℚ => b.2 ≤ a.2)
          ((List.range m.length).map
            (fun i => (i, innerProduct query_vec (m.getD i [])))) :=
        List.take_subset _ _ hx
      have hx2 := (List.perm_insertionSort (fun a b : Nat × ℚ => b.2 ≤ a.2)
        ((List.range m.length).map
          (fun i => (i, innerProduct query_vec (m.getD i []))))).subset hx1
      obtain ⟨i, hi, rfl⟩ := List.mem_map.mp hx2
      rw [← hrows]
      exact List.mem_range.mp hi
    simp only [retrieve_relevant_chunks, if_neg hch, if_neg hnz, if_neg hq']
    rw [length_filterMap_of_isSome _ _ (fun x hx => by simp [hmem x hx])]
    unfold faissSearch
    rw [List.length_take, (List.perm_insertionSort _ _).length_eq]
    rw [List.length_map, List.length_range, hrows, min_assoc, min_self]
  · rintro (rfl | rfl)
    · rfl
    · unfold retrieve_relevant_chunks
      split
      · rfl
      · rfl

/-- Witness for C7: a two-chunk store queried with `top_k = 5` returns
exactly `min 5 2` results. -/
theorem retrieval_sorted_clamped_witness :
    (retrieve_relevant_chunks [⟨"a", "s", 1⟩, ⟨"b", "s", 1⟩]
      (some [[1], [2]]) [1] 5).length = min 5 2 :=
  (retrieval_sorted_clamped [⟨"a", "s", 1⟩, ⟨"b", "s", 1⟩] (some [[1], [2]]) [1] 5).2.1
    [[1], [2]] rfl rfl (by decide) (by decide)

/-! ## Claim theorems: the chunker (C8) -/

/-- Stripping never lengthens a window. -/
lemma trimChars_length_le (l : List Char) : (trimChars l).length ≤ l.length := by
  unfold trimChars
  rw [List.length_reverse]
  calc ((l.dropWhile Char.isWhitespace).reverse.dropWhile Char.isWhitespace).length
      ≤ (l.dropWhile Char.isWhitespace).reverse.length :=
        (List.dropWhile_sublist Char.isWhitespace).length_le
    _ = (l.dropWhile Char.isWhitespace).length := List.length_reverse _
    _ ≤ l.length := (List.dropWhile_sublist Char.isWhitespace).length_le

/-- With `overlap < size` the window loop finishes within `length - start + 1`
iterations and its windows satisfy the left-to-right contract. -/
lemma chunkFuel_spec (size overlap length : Nat) (hso : overlap < size) :
    ∀ (fuel start : Nat), length - start < fuel →
      ∃ ws, chunkFuel size overlap length fuel start = some ws ∧
        (∀ w ∈ ws, w.2 = min (w.1 + size) length) ∧
        List.Chain' (fun a b : Nat × Nat => b.1 = a.2 - overlap ∧ a.1 < b.1) ws ∧
        (∀ w, ws.getLast? = some w → w.2 = length) ∧
        (∀ w, ws.head? = some w → w.1 = start) ∧
        (ws = [] ↔ length ≤ start) := by
  intro fuel
  induction fuel with
  | zero => intro start h; omega
  | succ fuel ih =>
    intro start hlt
    rw [chunkFuel]
    by_cases hs : start < length
    · rw [if_pos hs]
      by_cases he : min (start + size) length = length
      · rw [if_pos he]
        refine ⟨[(start, min (start + size) length)], rfl, ?_, ?_, ?_, ?_, ?_⟩
        · intro w hw
          simp only [List.mem_singleton] at hw
          subst hw
          rfl
        · simp
        · intro w hw
          simp only [List.getLast?_singleton, Option.some.injEq] at hw
          subst hw
          exact he
        · intro w hw
          simp only [List.head?_cons, Option.some.injEq] at hw
          subst hw
          rfl
        · simp [Nat.not_le.mpr hs]
      · rw [if_neg he]
        have hlt2 : start + size < length := by
          rcases Nat.lt_or_ge (start + size) length with h | h
          · exact h
          · exact absurd (Nat.min_eq_right h) he
        have hmin : min (start + size) length = start + size := Nat.min_eq_left (by omega)
        have hrec : length - (min (start + size) length - overlap) < fuel := by omega
        obtain ⟨ws, hws, hw1, hw2, hw3, hw4, hw5⟩ :=
          ih (min (start + size) length - overlap) hrec
        rw [hws]
        have hne : ws ≠ [] := by
          rw [ne_eq, hw5]
          omega
        refine ⟨(start, min (start + size) length) :: ws, rfl, ?_, ?_, ?_, ?_, ?_⟩
        · intro w hw
          rcases List.mem_cons.mp hw with rfl | hw'
          · rfl
          · exact hw1 w hw'
        · rw [List.chain'_cons']
          refine ⟨?_, hw2⟩
          intro y hy
          have hy1 := hw4 y hy
          refine ⟨hy1, ?_⟩
          omega
        · intro w hw
          cases ws with
          | nil => exact absurd rfl hne
          | cons w0 ws' =>
            rw [List.getLast?_cons_cons] at hw
            exact hw3 w hw
        · intro w hw
          simp only [List.head?_cons, Option.some.injEq] at hw
          subst hw
          rfl
        · simp [Nat.not_le.mpr hs]
    · rw [if_neg hs]
      refine ⟨[], rfl, by simp, by simp, by simp, by simp, ?_⟩
      simp [Nat.le_of_not_lt hs]

/-- C8 (amended): with `overlap < size` the chunker terminates on every text;
its windows go left to right, each spans at most `size` characters and ends
at `min (start + size) length`, consecutive cursors advance to
`end - overlap` (truncated at zero, which is Python's `max(0, end - overlap)`),
the final window ends exactly at the end of the text, and every emitted chunk
has at most `size` characters.  When `overlap ≥ size` the loop does not
advance and never terminates (see the counterexample). -/
theorem chunker_terminates_spec (text : List Char) (size overlap : Nat) (source : String)
    (page : Nat) (h : overlap < size) :
    ∃ ws, chunk_windows size overlap text = some ws ∧
      (∀ w ∈ ws, w.2 = min (w.1 + size) text.length ∧ w.2 - w.1 ≤ size) ∧
      List.Chain' (fun a b : Nat × Nat => b.1 = a.2 - overlap ∧ a.1 < b.1) ws ∧
      (∀ w, ws.getLast? = some w → w.2 = text.length) ∧
      (ws = [] ↔ text = []) ∧
      ∃ chunks, chunk_text size overlap text source page = some chunks ∧
        ∀ c ∈ chunks, c.text.length ≤ size := by
  obtain ⟨ws, hws, h1, h2, h3, h4, h5⟩ :=
    chunkFuel_spec size overlap text.length h (text.length + 1) 0 (by omega)
  refine ⟨ws, hws, ?_, h2, h3, ?_, ?_⟩
  · intro w hw
    have := h1 w hw
    exact ⟨this, by omega⟩
  · rw [h5]
    simp [List.length_eq_zero, Nat.le_zero]
  · have hcw : chunk_windows size overlap text = some ws := hws
    refine ⟨ws.filterMap (fun w =>
        let t := trimChars ((text.drop w.1).take (w.2 - w.1))
        if t.isEmpty then none else some ⟨String.mk t, source, page⟩), ?_, ?_⟩
    · unfold chunk_text
      rw [hcw]
      rfl
    intro c hc
    obtain ⟨w, hw, hcw⟩ := List.mem_filterMap.mp hc
    by_cases ht : trimChars ((text.drop w.1).take (w.2 - w.1)) = []
    · simp [ht] at hcw
    · rw [if_neg (by simpa using ht)] at hcw
      obtain rfl := Option.some.inj hcw
      have hlen : (trimChars ((text.drop w.1).take (w.2 - w.1))).length ≤ w.2 - w.1 := by
        calc (trimChars ((text.drop w.1).take (w.2 - w.1))).length
            ≤ ((text.drop w.1).take (w.2 - w.1)).length := trimChars_length_le _
          _ ≤ w.2 - w.1 := by simp [List.length_take]
      have hsize : w.2 - w.1 ≤ size := by
        have := h1 w hw
        omega
      calc (DocumentChunk.mk (String.mk (trimChars ((text.drop w.1).take (w.2 - w.1))))
            source page).text.length
          = (trimChars ((text.drop w.1).take (w.2 - w.1))).length := rfl
        _ ≤ w.2 - w.1 := hlen
        _ ≤ size := hsize

/-- Witness for the amended C8 on a concrete text and configuration. -/
theorem chunker_terminates_spec_witness :
    ∃ ws, chunk_windows 5 2 "hello world".toList = some ws ∧
      (∀ w, ws.getLast? = some w → w.2 = "hello world".toList.length) ∧
      ∃ chunks, chunk_text 5 2 "hello world".toList "doc" 1 = some chunks ∧
        ∀ c ∈ chunks, c.text.length ≤ 5 := by
  obtain ⟨ws, h1, h2, h3, h4, h5, h6⟩ :=
    chunker_terminates_spec "hello world".toList 5 2 "doc" 1 (by omega)
  exact ⟨ws, h1, h4, h6⟩

/-- The loop of `_chunk_text` never advances when `overlap = size`: on the
text `"ab"` with `size = overlap = 1` the cursor recomputes to `0` forever,
so the window loop runs out of any amount of fuel. -/
lemma chunkFuel_one_one_loops : ∀ fuel, chunkFuel 1 1 2 fuel 0 = none := by
  intro fuel
  induction fuel with
  | zero => rfl
  | succ fuel ih => simp [chunkFuel, ih]

/-- Counterexample to C8 as stated: with `size = 1 > 0` and `overlap = 1 ≥ 0`
the chunker does not terminate on the two-character text `"ab"` — the
windows computation fails for the standard fuel and for fuel 1000 alike,
because `max(0, end - overlap)` re-yields cursor 0 while the window never
reaches the end of the text. -/
theorem chunker_nonterminating_counterexample :
    chunk_windows 1 1 "ab".toList = none ∧
    chunkFuel 1 1 2 1000 0 = none ∧
    chunk_text 1 1 "ab".toList "doc" 1 = none :=
  ⟨by decide, chunkFuel_one_one_loops 1000, by decide⟩
